import Mathlib

/-!
Formalisation of the in-memory session-state core of a Telegram message-relay
bot: the per-user sliding-window `RateLimiter` of `main.py` and the per-user
bounded, time-expiring `ContextManager` of `context_manager.py`.

Time is modelled exactly: `datetime.now()` has microsecond resolution, so rate
limiter instants are integer counts of microseconds; `timedelta(seconds=w)` is
`w * 1000000` microseconds.  The context manager's behaviour is insensitive to
sub-second detail, so its instants are integer counts of seconds.  Python
strings are sequences of code points, modelled as `List Char`.
-/

/-! ## RateLimiter (`main.py`) -/

/-- The fields stored by `RateLimiter.__init__`: `max_messages` and
`time_window` (seconds), kept exactly as given. -/
structure RateLimiter where
  max_messages : Int
  time_window : Int
  deriving DecidableEq

/-- Construction of a rate limiter: `__init__` only stores the two parameters
and can never raise, so construction always succeeds (`.ok`) whatever the
values are. -/
def RateLimiter.init (max_messages time_window : Int) : Except String RateLimiter :=
  .ok { max_messages := max_messages, time_window := time_window }

/-- One user's recorded admission instants (`self.user_messages[user_id]`),
oldest first, in microseconds.  Distinct users occupy independent entries of a
`defaultdict(list)`, so the per-user list is the entire state an operation for
that user reads or writes. -/
abbrev History := List Int

/-- `RateLimiter.is_allowed`: compute `cutoff = now - timedelta(seconds=time_window)`,
store back only the recorded instants strictly greater than the cutoff, then
reject if the remaining count is at least `max_messages`, otherwise record
`now` and admit.  Returns the verdict together with the stored list. -/
def RateLimiter.is_allowed (rl : RateLimiter) (history : History) (now : Int) :
    Bool × History :=
  let pruned := history.filter (fun t => decide (now - rl.time_window * 1000000 < t))
  if rl.max_messages ≤ (pruned.length : Int) then (false, pruned)
  else (true, pruned ++ [now])

/-- Python's `min` of two integers, written so that it evaluates by cases. -/
def intMin (a b : Int) : Int := if a ≤ b then a else b

/-- Python's `max(0, z)` on an integer. -/
def pyMax0 (z : Int) : Int := if z < 0 then 0 else z

/-- Python's `int(...)` applied to a microsecond count read as seconds
(`timedelta.total_seconds()` followed by `int`, which truncates toward zero). -/
def truncMicro (m : Int) : Int :=
  if 0 ≤ m then ((m.toNat / 1000000 : Nat) : Int)
  else -(((-m).toNat / 1000000 : Nat) : Int)

/-- Modelled from the spec: the value `ceil(x)` of a microsecond count `x`
read as seconds, which §4.1 of the spec claims `WaitSeconds` returns.  The
source computes `max(0, int(wait_time))` instead; this definition exists only
to compare the spec's formula with the source's. -/
def ceilSecondsOfMicro (m : Int) : Int :=
  if 0 ≤ m then (((m.toNat + 999999) / 1000000 : Nat) : Int)
  else -(((-m).toNat / 1000000 : Nat) : Int)

/-- `RateLimiter.get_wait_time`: 0 for a user with no recorded instants,
otherwise `max(0, int((min(history) + window) - now))`.  It only reads the
stored list; nothing is pruned or written. -/
def RateLimiter.get_wait_time (rl : RateLimiter) (history : History) (now : Int) : Int :=
  match history with
  | [] => 0
  | t :: ts =>
    pyMax0 (truncMicro ((ts.foldl intMin t + rl.time_window * 1000000) - now))

/-- A sequence of `is_allowed` calls for one user at the given instants,
starting from a given stored list: the call log (instant, verdict) and the
final stored list. -/
def RateLimiter.runCalls (rl : RateLimiter) (history : History) :
    List Int → List (Int × Bool) × History
  | [] => ([], history)
  | t :: ts =>
    let step := rl.is_allowed history t
    let rest := rl.runCalls step.2 ts
    ((t, step.1) :: rest.1, rest.2)

/-- The instants of the admitted calls in a call log. -/
def admittedTimes (log : List (Int × Bool)) : List Int :=
  log.filterMap (fun p => if p.2 then some p.1 else none)

/-! ## ContextManager (`context_manager.py`) -/

/-- The constants of `config.py` read by the context manager. -/
structure Config where
  CONTEXT_MAX_MESSAGES : Nat
  CONTEXT_TIMEOUT_MINUTES : Int
  CONTEXT_MAX_TOKENS : Nat
  deriving DecidableEq

/-- The values assigned in `config.py`. -/
def defaultConfig : Config :=
  { CONTEXT_MAX_MESSAGES := 10, CONTEXT_TIMEOUT_MINUTES := 30, CONTEXT_MAX_TOKENS := 4000 }

/-- The `ContextMessage` dataclass: stripped text, creation instant (seconds),
optional Telegram message id. -/
structure ContextMessage where
  text : List Char
  timestamp : Int
  message_id : Option Int
  deriving DecidableEq

/-- Python `str.strip()`: drop whitespace from both ends. -/
def pyStrip (s : List Char) : List Char :=
  ((s.dropWhile Char.isWhitespace).reverse.dropWhile Char.isWhitespace).reverse

/-- The state of a `ContextManager`: the dicts `user_contexts` and
`user_last_activity`, as insertion-ordered key/value lists. -/
structure ContextManager where
  user_contexts : List (Int × List ContextMessage)
  user_last_activity : List (Int × Int)
  deriving DecidableEq

/-- `ContextManager.__init__`: both dicts start empty; construction can never
raise, whatever the ambient configuration holds. -/
def ContextManager.init : Except String ContextManager :=
  .ok { user_contexts := [], user_last_activity := [] }

/-- Python `d[k] = v` on a dict: replace the binding in place when the key is
present, otherwise append it. -/
def dictSet {α : Type} (l : List (Int × α)) (u : Int) (a : α) : List (Int × α) :=
  if l.any (fun p => decide (p.1 = u)) then
    l.map (fun p => if p.1 = u then (u, a) else p)
  else l ++ [(u, a)]

/-- The cap step of `add_message`: when a list has more than `n` entries,
replace it with the Python slice `l[-n:]` — the last `n` entries when
`n ≥ 1`, but the whole list when `n = 0`, since Python's `l[-0:]` is
`l[0:]`. -/
def capIf {α : Type} (n : Nat) (l : List α) : List α :=
  if n < l.length then (if n = 0 then l else l.drop (l.length - n)) else l

/-- `ContextManager.add_message`: a silent no-op when the stripped text has
fewer than 5 characters (Python's `not text or len(text.strip()) < 5`; an
empty `text` is subsumed by the length test).  Otherwise append the stripped
entry, set `user_last_activity[user_id] = now`, and if the list then has more
than `CONTEXT_MAX_MESSAGES` entries keep only its last
`CONTEXT_MAX_MESSAGES`. -/
def ContextManager.add_message (cfg : Config) (cm : ContextManager) (user_id : Int)
    (text : List Char) (message_id : Option Int) (now : Int) : ContextManager :=
  if (pyStrip text).length < 5 then cm
  else
    let cur := (cm.user_contexts.lookup user_id).getD []
    let appended := cur ++ [{ text := pyStrip text, timestamp := now, message_id := message_id }]
    let capped := capIf cfg.CONTEXT_MAX_MESSAGES appended
    { user_contexts := dictSet cm.user_contexts user_id capped,
      user_last_activity := dictSet cm.user_last_activity user_id now }

/-- `ContextManager.clear_context`: delete the user's binding from both dicts;
idempotent. -/
def ContextManager.clear_context (cm : ContextManager) (user_id : Int) : ContextManager :=
  { user_contexts := cm.user_contexts.filter (fun p => !decide (p.1 = user_id)),
    user_last_activity := cm.user_last_activity.filter (fun p => !decide (p.1 = user_id)) }

/-- `ContextManager._is_context_expired`: expired when the user has no
recorded activity, or when strictly more than
`timedelta(minutes=CONTEXT_TIMEOUT_MINUTES)` has passed since it. -/
def ContextManager.is_context_expired (cfg : Config) (cm : ContextManager)
    (user_id : Int) (now : Int) : Bool :=
  match cm.user_last_activity.lookup user_id with
  | none => true
  | some la => decide (60 * cfg.CONTEXT_TIMEOUT_MINUTES < now - la)

/-- `ContextManager.has_context`: false when the user has no buffer or an
empty one; on an expired buffer, clear it and answer false; otherwise true. -/
def ContextManager.has_context (cfg : Config) (cm : ContextManager)
    (user_id : Int) (now : Int) : Bool × ContextManager :=
  match cm.user_contexts.lookup user_id with
  | none => (false, cm)
  | some [] => (false, cm)
  | some (_ :: _) =>
    if cm.is_context_expired cfg user_id now then (false, cm.clear_context user_id)
    else (true, cm)

/-- Two-digit zero-padded decimal, as `strftime` renders `%H`, `%M`, `%S`. -/
def pad2 (n : Nat) : List Char :=
  if n < 10 then '0' :: (toString n).data else (toString n).data

/-- `timestamp.strftime("%H:%M:%S")` of an instant counted in seconds. -/
def timeStr (t : Int) : List Char :=
  let n := (t % 86400).toNat
  pad2 (n / 3600) ++ ":".data ++ pad2 (n % 3600 / 60) ++ ":".data ++ pad2 (n % 60)

/-- One rendered block `f"[Сообщение {i}, {time_str}]\n{msg.text}"`. -/
def renderEntry (i : Nat) (m : ContextMessage) : List Char :=
  "[Сообщение ".data ++ (toString i).data ++ ", ".data
    ++ timeStr m.timestamp ++ "]\n".data ++ m.text

/-- The separator `"\n\n---\n\n"` joining rendered blocks. -/
def ctxSep : List Char := "\n\n---\n\n".data

/-- The blocks of `enumerate(msgs, i)`: entries numbered consecutively from
`i`. -/
def renderFrom (i : Nat) : List ContextMessage → List (List Char)
  | [] => []
  | m :: rest => renderEntry i m :: renderFrom (i + 1) rest

/-- The full oldest-to-newest rendering built by `get_context_text`: blocks
numbered from 1, joined by the separator. -/
def renderFull (msgs : List ContextMessage) : List Char :=
  List.intercalate ctxSep (renderFrom 1 msgs)

/-- The rendering of the trailing `i` messages built inside
`_truncate_context`: the slice `messages[-i:]`, each block numbered
`len(messages) - i + messages[-i:].index(msg) + 1`, where `list.index` finds
the first equal element. -/
def renderSuffix (msgs : List ContextMessage) (i : Nat) : List Char :=
  let n := msgs.length
  let suf := msgs.drop (n - i)
  List.intercalate ctxSep
    (suf.map (fun m =>
      renderEntry (n - i + suf.findIdx (fun m' => decide (m' = m)) + 1) m))

/-- The descending loop of `_truncate_context` (`for i in range(len, 0, -1)`):
try the trailing `i` messages for `i = k, k-1, …, 1` and return the first
rendering whose length fits `maxChars`. -/
def truncLoop (msgs : List ContextMessage) (maxChars : Nat) : Nat → Option (List Char)
  | 0 => none
  | i + 1 =>
    let s := renderSuffix msgs (i + 1)
    if s.length ≤ maxChars then some s else truncLoop msgs maxChars i

/-- `ContextManager._truncate_context`: the loop's first fitting suffix
rendering, else the last message's text cut to `max_tokens * 4` characters
(`last_msg.text[:max_chars]`), else `""` for no messages at all. -/
def truncate_context (msgs : List ContextMessage) (maxTokens : Nat) : List Char :=
  let maxChars := maxTokens * 4
  match truncLoop msgs maxChars msgs.length with
  | some s => s
  | none =>
    match msgs.getLast? with
    | some m => m.text.take maxChars
    | none => []

/-- `ContextManager.get_context_text`: `None` when the user has no buffer or
an empty one; on expiry, clear the buffer and return `None`; otherwise the
full rendering, replaced by `_truncate_context`'s output when
`len(text) // 4 > CONTEXT_MAX_TOKENS`. -/
def ContextManager.get_context_text (cfg : Config) (cm : ContextManager)
    (user_id : Int) (now : Int) : Option (List Char) × ContextManager :=
  match cm.user_contexts.lookup user_id with
  | none => (none, cm)
  | some [] => (none, cm)
  | some (m :: rest) =>
    if cm.is_context_expired cfg user_id now then (none, cm.clear_context user_id)
    else
      let full := renderFull (m :: rest)
      if cfg.CONTEXT_MAX_TOKENS < full.length / 4 then
        (some (truncate_context (m :: rest) cfg.CONTEXT_MAX_TOKENS), cm)
      else (some full, cm)

/-- `ContextManager.cleanup_expired_contexts`: collect the expired user ids of
`user_contexts` first, then clear each.  The Python function has no `return`
statement, so its value is `None`, modelled as `none`. -/
def ContextManager.cleanup_expired_contexts (cfg : Config) (cm : ContextManager)
    (now : Int) : Option Nat × ContextManager :=
  let expired := (cm.user_contexts.map Prod.fst).filter
    (fun u => cm.is_context_expired cfg u now)
  (none, expired.foldl (fun s u => s.clear_context u) cm)

/-- A sequence of `add_message` calls for one user starting from a fresh
manager; each item is (text, message id, instant). -/
def runAppends (cfg : Config) (user_id : Int)
    (items : List (List Char × Option Int × Int)) : ContextManager :=
  items.foldl (fun cm it => cm.add_message cfg user_id it.1 it.2.1 it.2.2)
    { user_contexts := [], user_last_activity := [] }

/-- The entry a valid item of `runAppends` creates. -/
def mkEntry (it : List Char × Option Int × Int) : ContextMessage :=
  { text := pyStrip it.1, timestamp := it.2.2, message_id := it.2.1 }

/-- The entries of the items that pass `add_message`'s length guard, in call
order. -/
def validEntries (items : List (List Char × Option Int × Int)) : List ContextMessage :=
  (items.filter (fun it => !decide ((pyStrip it.1).length < 5))).map mkEntry

/-- The last `n` elements of a list (`l[-n:]` when `n ≥ 1`); the whole list
when `n ≥ len(l)`. -/
def capList {α : Type} (n : Nat) (l : List α) : List α := l.drop (l.length - n)

/-! ## Rate limiter lemmas -/

lemma is_allowed_eq (rl : RateLimiter) (h : History) (now : Int) :
    rl.is_allowed h now =
      (decide (((h.filter (fun t => decide (now - rl.time_window * 1000000 < t))).length : Int)
          < rl.max_messages),
       h.filter (fun t => decide (now - rl.time_window * 1000000 < t))
         ++ (if ((h.filter (fun t => decide (now - rl.time_window * 1000000 < t))).length : Int)
                < rl.max_messages then [now] else [])) := by
  simp only [RateLimiter.is_allowed]
  by_cases hc : rl.max_messages
      ≤ ((h.filter (fun t => decide (now - rl.time_window * 1000000 < t))).length : Int)
  · rw [if_pos hc, if_neg (by omega), decide_eq_false (by omega)]
    simp
  · rw [if_neg hc, if_pos (by omega), decide_eq_true (by omega)]

lemma step_length_le (rl : RateLimiter) (h : History) (now : Int)
    (hh : (h.length : Int) ≤ rl.max_messages) :
    (((rl.is_allowed h now).2).length : Int) ≤ rl.max_messages := by
  have hfl : ((h.filter (fun t => decide (now - rl.time_window * 1000000 < t))).length : Int)
      ≤ (h.length : Int) := by
    exact_mod_cast List.length_filter_le _ h
  rw [is_allowed_eq]
  split
  · rename_i hc
    simp only [List.length_append, List.length_cons, List.length_nil]
    push_cast
    omega
  · simp only [List.append_nil]
    omega

lemma runCalls_length_le (rl : RateLimiter) (calls : List Int) (h : History)
    (hh : (h.length : Int) ≤ rl.max_messages) :
    (((rl.runCalls h calls).2).length : Int) ≤ rl.max_messages := by
  induction calls generalizing h with
  | nil => simpa [RateLimiter.runCalls] using hh
  | cons c cs ih =>
    simp only [RateLimiter.runCalls]
    exact ih _ (step_length_le rl h c hh)

lemma admittedTimes_cons (t : Int) (b : Bool) (log : List (Int × Bool)) :
    admittedTimes ((t, b) :: log)
      = (if b then [t] else []) ++ admittedTimes log := by
  cases b <;> simp [admittedTimes, List.filterMap_cons]

lemma admittedTimes_append (l1 l2 : List (Int × Bool)) :
    admittedTimes (l1 ++ l2) = admittedTimes l1 ++ admittedTimes l2 :=
  List.filterMap_append l1 l2 _

lemma mem_admittedTimes_runCalls (rl : RateLimiter) (calls : List Int) (h : History)
    (s : Int) (hs : s ∈ admittedTimes (rl.runCalls h calls).1) : s ∈ calls := by
  induction calls generalizing h with
  | nil => simp [RateLimiter.runCalls, admittedTimes] at hs
  | cons c cs ih =>
    simp only [RateLimiter.runCalls] at hs
    rw [admittedTimes_cons] at hs
    rcases List.mem_append.1 hs with h1 | h2
    · rw [List.mem_cons]
      left
      split at h1 <;> simp_all
    · exact List.mem_cons_of_mem _ (ih _ h2)

lemma countP_filter_of_imp {p q : Int → Bool} (l : List Int)
    (hpq : ∀ a ∈ l, p a = true → q a = true) :
    List.countP p (l.filter q) = List.countP p l := by
  rw [List.countP_filter]
  refine List.countP_congr fun a ha => ?_
  simp only [Bool.and_eq_true]
  exact ⟨fun hb => hb.1, fun hb => ⟨hb, hpq a ha hb⟩⟩

/-- The heart of the sliding-window invariant: running a nondecreasing
sequence of calls, all at instants at most `t`, from a stored list that is
within the admitted budget and not later than any future call, the admitted
instants beyond the window cutoff at `t` — together with the starting list —
never number more than `max_messages`. -/
lemma window_count_le (rl : RateLimiter) :
    ∀ (calls : List Int) (h : History) (t : Int),
      calls.Pairwise (· ≤ ·) →
      ((h.length : Int) ≤ rl.max_messages) →
      (∀ s ∈ h, ∀ c ∈ calls, s ≤ c) →
      (∀ c ∈ calls, c ≤ t) →
      ((List.countP (fun s => decide (t - rl.time_window * 1000000 < s))
          (h ++ admittedTimes (rl.runCalls h calls).1) : Int))
        ≤ rl.max_messages := by
  intro calls
  induction calls with
  | nil =>
    intro h t _ hh _ _
    simp only [RateLimiter.runCalls, admittedTimes, List.filterMap_nil, List.append_nil]
    exact le_trans (by exact_mod_cast List.countP_le_length _) hh
  | cons c cs ih =>
    intro h t hsort hh hlb hub
    have hcs_sort : cs.Pairwise (· ≤ ·) := (List.pairwise_cons.1 hsort).2
    have hcle : ∀ c' ∈ cs, c ≤ c' := (List.pairwise_cons.1 hsort).1
    have hct : c ≤ t := hub c (List.mem_cons_self _ _)
    simp only [RateLimiter.runCalls]
    rw [admittedTimes_cons]
    have hkey : List.countP (fun s => decide (t - rl.time_window * 1000000 < s))
        (h ++ ((if (rl.is_allowed h c).1 then [c] else [])
          ++ admittedTimes (rl.runCalls (rl.is_allowed h c).2 cs).1))
        = List.countP (fun s => decide (t - rl.time_window * 1000000 < s))
            ((rl.is_allowed h c).2 ++ admittedTimes (rl.runCalls (rl.is_allowed h c).2 cs).1) := by
      conv_rhs => rw [is_allowed_eq]
      have hfil : List.countP (fun s => decide (t - rl.time_window * 1000000 < s))
          (h.filter (fun s => decide (c - rl.time_window * 1000000 < s)))
          = List.countP (fun s => decide (t - rl.time_window * 1000000 < s)) h := by
        refine countP_filter_of_imp h fun a _ hpa => ?_
        simp only [decide_eq_true_eq] at *
        omega
      rw [is_allowed_eq]
      simp only [List.countP_append, hfil]
      have hsame : (if (decide (((h.filter (fun t => decide (c - rl.time_window * 1000000 < t))).length : Int) < rl.max_messages)) = true then [c] else [])
          = (if ((h.filter (fun t => decide (c - rl.time_window * 1000000 < t))).length : Int) < rl.max_messages then [c] else []) := by
        simp
      rw [hsame]
      ring
    rw [hkey]
    refine ih ((rl.is_allowed h c).2) t hcs_sort ?_ ?_ ?_
    · exact step_length_le rl h c hh
    · intro s hs c' hc'
      rw [is_allowed_eq] at hs
      rcases List.mem_append.1 hs with h1m | h2m
      · exact hlb s (List.mem_filter.1 h1m).1 c' (List.mem_cons_of_mem _ hc')
      · have hsc : s = c := by
          split at h2m <;> simp_all
        exact hsc ▸ hcle c' hc'
    · intro c' hc'
      exact hub c' (List.mem_cons_of_mem _ hc')

lemma runCalls_append (rl : RateLimiter) (h : History) (l1 l2 : List Int) :
    rl.runCalls h (l1 ++ l2)
      = ((rl.runCalls h l1).1 ++ (rl.runCalls (rl.runCalls h l1).2 l2).1,
         (rl.runCalls (rl.runCalls h l1).2 l2).2) := by
  induction l1 generalizing h with
  | nil => simp [RateLimiter.runCalls]
  | cons c cs ih => simp [RateLimiter.runCalls, ih]

lemma mem_dropWhile_gt (t : Int) (l : List Int) (hsort : l.Pairwise (· ≤ ·)) :
    ∀ s ∈ l.dropWhile (fun c => decide (c ≤ t)), t < s := by
  induction l with
  | nil => simp
  | cons c cs ih =>
    intro s hs
    rw [List.dropWhile_cons] at hs
    by_cases hc : c ≤ t
    · rw [if_pos (by simpa using hc)] at hs
      exact ih (List.pairwise_cons.1 hsort).2 s hs
    · rw [if_neg (by simpa using hc)] at hs
      rcases List.mem_cons.1 hs with rfl | hmem
      · omega
      · have := (List.pairwise_cons.1 hsort).1 s hmem
        omega

/-- C1: for every user and every nondecreasing sequence of `is_allowed` calls
for that user, at any instant `t` the number of admitted calls whose admission
instants lie within the trailing window `(t - windowSeconds, t]` is at most
`max_messages`; moreover each single call admits exactly when, after pruning
the recorded instants `≤ now - windowSeconds`, the remaining count is below
`max_messages`, and it records `now` as a new instant only when it admits. -/
theorem rateLimiter_admit_window_invariant (rl : RateLimiter) (calls : List Int) (t : Int)
    (hmax : 0 < rl.max_messages) (hw : 0 < rl.time_window)
    (hsort : calls.Pairwise (· ≤ ·)) :
    ((List.countP (fun s => decide (t - rl.time_window * 1000000 < s ∧ s ≤ t))
        (admittedTimes (rl.runCalls [] calls).1) : Int) ≤ rl.max_messages)
    ∧ (∀ (h : History) (now : Int),
        ((rl.is_allowed h now).1 = true ↔
          ((h.filter (fun s => !decide (s ≤ now - rl.time_window * 1000000))).length : Int)
            < rl.max_messages)
        ∧ (rl.is_allowed h now).2
            = h.filter (fun s => !decide (s ≤ now - rl.time_window * 1000000))
              ++ (if (rl.is_allowed h now).1 then [now] else [])) := by
  have hfeq : ∀ (now : Int) (h : History),
      h.filter (fun s => !decide (s ≤ now - rl.time_window * 1000000))
        = h.filter (fun s => decide (now - rl.time_window * 1000000 < s)) := by
    intro now h
    refine List.filter_congr fun a _ => ?_
    rw [← decide_not, decide_eq_decide]
    omega
  constructor
  · have hsort1 : (calls.takeWhile (fun c => decide (c ≤ t))).Pairwise (· ≤ ·) :=
      List.Pairwise.sublist (List.takeWhile_sublist _) hsort
    have hrun := runCalls_append rl [] (calls.takeWhile (fun c => decide (c ≤ t)))
      (calls.dropWhile (fun c => decide (c ≤ t)))
    rw [List.takeWhile_append_dropWhile] at hrun
    rw [hrun]
    simp only [admittedTimes_append, List.countP_append]
    have hA2 : List.countP (fun s => decide (t - rl.time_window * 1000000 < s ∧ s ≤ t))
        (admittedTimes (rl.runCalls
          (rl.runCalls [] (calls.takeWhile (fun c => decide (c ≤ t)))).2
          (calls.dropWhile (fun c => decide (c ≤ t)))).1) = 0 := by
      rw [List.countP_eq_zero]
      intro a ha
      have hal2 : a ∈ calls.dropWhile (fun c => decide (c ≤ t)) :=
        mem_admittedTimes_runCalls rl _ _ a ha
      have hta : t < a := mem_dropWhile_gt t calls hsort a hal2
      simp only [decide_eq_true_eq, not_and, not_le]
      intro _
      exact hta
    have hmono : List.countP (fun s => decide (t - rl.time_window * 1000000 < s ∧ s ≤ t))
        (admittedTimes (rl.runCalls [] (calls.takeWhile (fun c => decide (c ≤ t)))).1)
        ≤ List.countP (fun s => decide (t - rl.time_window * 1000000 < s))
          (admittedTimes (rl.runCalls [] (calls.takeWhile (fun c => decide (c ≤ t)))).1) := by
      refine List.countP_mono_left fun x _ hx => ?_
      simp only [decide_eq_true_eq] at *
      exact hx.1
    have hmain := window_count_le rl (calls.takeWhile (fun c => decide (c ≤ t))) [] t
      hsort1 (by simp; omega) (by simp)
      (fun c hc => by simpa using List.mem_takeWhile_imp hc)
    rw [List.nil_append] at hmain
    rw [hA2]
    have : (List.countP (fun s => decide (t - rl.time_window * 1000000 < s ∧ s ≤ t))
        (admittedTimes (rl.runCalls [] (calls.takeWhile (fun c => decide (c ≤ t)))).1) : Int)
        ≤ rl.max_messages := le_trans (by exact_mod_cast hmono) hmain
    simpa using this
  · intro h now
    rw [hfeq now h, is_allowed_eq]
    refine ⟨by simp, by simp⟩

/-- Witness for C1 at `max_messages = 5`, `time_window = 60` and the call
instants 0, 1 s, 2 s, observed at `t` = 10 s. -/
theorem rateLimiter_admit_window_invariant_witness :
    (0 : Int) < 5 ∧ (0 : Int) < 60
    ∧ List.Pairwise (· ≤ ·) [(0 : Int), 1000000, 2000000]
    ∧ (((List.countP
          (fun s => decide (10000000 - (60:Int) * 1000000 < s ∧ s ≤ 10000000))
          (admittedTimes ((RateLimiter.runCalls ⟨5, 60⟩ [] [(0 : Int), 1000000, 2000000]).1)) : Int)
        ≤ 5)
      ∧ (∀ (h : History) (now : Int),
          (((RateLimiter.is_allowed ⟨5, 60⟩ h now).1 = true ↔
            ((h.filter (fun s => !decide (s ≤ now - (60:Int) * 1000000))).length : Int) < 5)
          ∧ (RateLimiter.is_allowed ⟨5, 60⟩ h now).2
              = h.filter (fun s => !decide (s ≤ now - (60:Int) * 1000000))
                ++ (if (RateLimiter.is_allowed ⟨5, 60⟩ h now).1 then [now] else [])))) :=
  ⟨by decide, by decide, by decide,
   rateLimiter_admit_window_invariant ⟨5, 60⟩ [0, 1000000, 2000000] 10000000
     (by decide) (by decide) (by decide)⟩

/-- C6 (amended): immediately after `is_allowed` at instant `now` (on a log
whose instants do not lie in the future), every stored instant lies within
`(now - windowSeconds, now]`, hence within `[now - windowSeconds, now]`.
`get_wait_time`, by contrast, is read-only and prunes nothing, so the claimed
invariant does not extend to it (see the counterexample). -/
theorem rateLimiter_admit_prunes_window (rl : RateLimiter) (h : History) (now : Int)
    (hw : 0 < rl.time_window) (hbound : ∀ s ∈ h, s ≤ now) :
    ∀ s ∈ (rl.is_allowed h now).2,
      now - rl.time_window * 1000000 < s ∧ s ≤ now := by
  intro s hs
  rw [is_allowed_eq] at hs
  rcases List.mem_append.1 hs with h1 | h2
  · have hm := List.mem_filter.1 h1
    refine ⟨by simpa using hm.2, hbound s hm.1⟩
  · have hsc : s = now := by split at h2 <;> simp_all
    subst hsc
    omega

/-- Witness for the amended C6 at `max_messages = 5`, `time_window = 60`, a
log holding instant 0 and a call at `now` = 5 µs. -/
theorem rateLimiter_admit_prunes_window_witness :
    (0 : Int) < 60 ∧ (∀ s ∈ [(0 : Int)], s ≤ 5)
    ∧ (∀ s ∈ (RateLimiter.is_allowed ⟨5, 60⟩ [(0 : Int)] 5).2,
        (5 : Int) - 60 * 1000000 < s ∧ s ≤ 5) :=
  ⟨by decide, by decide,
   rateLimiter_admit_prunes_window ⟨5, 60⟩ [0] 5 (by decide) (by decide)⟩

/-- C6 counterexample: `get_wait_time` is a read of the user's activity log,
yet it prunes nothing.  With `max_messages = 5`, `time_window = 60` s, an
instant recorded at 0 and a `get_wait_time` read at `now` = 100 s, the log
still holds 0 afterwards (the function does not write at all), and
0 lies outside `[now - windowSeconds, now]` — refuting the claim that every
read or write leaves all stored timestamps within the window. -/
theorem rateLimiter_read_leaves_stale_cex :
    ((RateLimiter.is_allowed ⟨5, 60⟩ [] 0).2 = [(0 : Int)])
    ∧ RateLimiter.get_wait_time ⟨5, 60⟩ [(0 : Int)] 100000000 = 0
    ∧ (0 : Int) ∈ [(0 : Int)]
    ∧ ¬ ((100000000 : Int) - 60 * 1000000 ≤ 0) := by decide

lemma pyMax0_nonneg (z : Int) : 0 ≤ pyMax0 z := by
  unfold pyMax0
  split <;> omega

lemma le_pyMax0 (z : Int) : z ≤ pyMax0 z := by
  unfold pyMax0
  split <;> omega

lemma truncMicro_nonneg (m : Int) (hm : 0 ≤ m) : 0 ≤ truncMicro m := by
  unfold truncMicro
  rw [if_pos hm]
  exact Int.natCast_nonneg _

lemma truncMicro_nonpos (m : Int) (hm : m ≤ 0) : truncMicro m ≤ 0 := by
  unfold truncMicro
  split <;> omega

lemma truncMicro_nonneg_bounds (m : Int) (hm : 0 ≤ m) :
    truncMicro m * 1000000 ≤ m ∧ m < (truncMicro m + 1) * 1000000 := by
  unfold truncMicro
  rw [if_pos hm]
  omega

lemma foldl_intMin_choice (ts : List Int) : ∀ t : Int, ts.foldl intMin t ∈ t :: ts := by
  induction ts with
  | nil => simp [List.foldl_nil]
  | cons a ts ih =>
    intro t
    rw [List.foldl_cons]
    rcases List.mem_cons.1 (ih (intMin t a)) with heq | hmem
    · rw [heq]
      unfold intMin
      split
      · exact List.mem_cons_self _ _
      · exact List.mem_cons_of_mem _ (List.mem_cons_self _ _)
    · exact List.mem_cons_of_mem _ (List.mem_cons_of_mem _ hmem)

lemma foldl_intMin_le (ts : List Int) : ∀ t : Int, ∀ s ∈ t :: ts, ts.foldl intMin t ≤ s := by
  induction ts with
  | nil =>
    intro t s hs
    rcases List.mem_cons.1 hs with rfl | h
    · simp [List.foldl_nil]
    · simp at h
  | cons a ts ih =>
    intro t s hs
    rw [List.foldl_cons]
    have hmin_t : intMin t a ≤ t := by unfold intMin; split <;> omega
    have hmin_a : intMin t a ≤ a := by unfold intMin; split <;> omega
    have hfold : ts.foldl intMin (intMin t a) ≤ intMin t a :=
      ih (intMin t a) _ (List.mem_cons_self _ _)
    rcases List.mem_cons.1 hs with rfl | hs'
    · omega
    · rcases List.mem_cons.1 hs' with rfl | hs'' 
      · omega
      · exact ih (intMin t a) s (List.mem_cons_of_mem _ hs'')

/-- C3 (amended): `get_wait_time` returns 0 for a user with no recorded
instants; otherwise it returns `max(0, int((oldest + window) - now))`, the
residual wait truncated toward zero to whole seconds — not rounded up as the
spec's `ceil` formula states: when the residual is nonnegative, the returned
value `v` satisfies `v ≤ residual < v + 1` seconds, and a negative residual
yields 0.  Consequently, from a full log of exactly `max_messages` recorded
instants, a retry strictly earlier than `v` seconds later is still rejected,
and a retry `v + 1` seconds later (or any time after the residual has fully
elapsed) is admitted; a retry exactly `v` seconds later succeeds only when the
residual is a whole number of seconds. -/
theorem rateLimiter_wait_time_trunc (rl : RateLimiter)
    (hmax : 0 < rl.max_messages) (hw : 0 < rl.time_window) :
    (∀ now : Int, rl.get_wait_time [] now = 0)
    ∧ (∀ (t : Int) (ts : List Int) (now : Int),
        (0 ≤ ts.foldl intMin t + rl.time_window * 1000000 - now →
          (rl.get_wait_time (t :: ts) now * 1000000
              ≤ ts.foldl intMin t + rl.time_window * 1000000 - now
           ∧ ts.foldl intMin t + rl.time_window * 1000000 - now
              < (rl.get_wait_time (t :: ts) now + 1) * 1000000))
        ∧ (ts.foldl intMin t + rl.time_window * 1000000 - now < 0 →
            rl.get_wait_time (t :: ts) now = 0))
    ∧ (∀ (hp : History) (now d : Int),
        (hp.length : Int) = rl.max_messages → 0 ≤ d →
        ((d < rl.get_wait_time hp now * 1000000 →
            (rl.is_allowed hp (now + d)).1 = false)
         ∧ ((rl.get_wait_time hp now + 1) * 1000000 ≤ d →
            (rl.is_allowed hp (now + d)).1 = true))) := by
  refine ⟨fun _ => rfl, ?_, ?_⟩
  · intro t ts now
    constructor
    · intro hres
      have hb := truncMicro_nonneg_bounds _ hres
      have hnn := truncMicro_nonneg _ hres
      have hval : rl.get_wait_time (t :: ts) now
          = truncMicro (ts.foldl intMin t + rl.time_window * 1000000 - now) := by
        simp only [RateLimiter.get_wait_time, pyMax0]
        rw [if_neg (by omega)]
      rw [hval]
      exact hb
    · intro hres
      have hnp := truncMicro_nonpos _ (le_of_lt hres)
      simp only [RateLimiter.get_wait_time, pyMax0]
      split <;> omega
  · intro hp now d hlen hd
    obtain ⟨t, ts, rfl⟩ : ∃ t ts, hp = t :: ts := by
      cases hp with
      | nil => refine absurd hlen (by simp; omega)
      | cons a b => exact ⟨a, b, rfl⟩
    have hmem : ts.foldl intMin t ∈ t :: ts := foldl_intMin_choice ts t
    have hle : ∀ s ∈ t :: ts, ts.foldl intMin t ≤ s := foldl_intMin_le ts t
    have hval : rl.get_wait_time (t :: ts) now
        = pyMax0 (truncMicro (ts.foldl intMin t + rl.time_window * 1000000 - now)) := rfl
    constructor
    · intro hdv
      have hvpos : 0 < rl.get_wait_time (t :: ts) now := by omega
      have hveq : rl.get_wait_time (t :: ts) now
          = truncMicro (ts.foldl intMin t + rl.time_window * 1000000 - now) := by
        rw [hval] at hvpos ⊢
        unfold pyMax0 at hvpos ⊢
        split at hvpos <;> [omega; (rw [if_neg]; omega)]
      have hxnn : 0 ≤ ts.foldl intMin t + rl.time_window * 1000000 - now := by
        by_contra hneg
        have := truncMicro_nonpos (ts.foldl intMin t + rl.time_window * 1000000 - now)
          (by omega)
        omega
      have hb := truncMicro_nonneg_bounds _ hxnn
      have hdx : d < ts.foldl intMin t + rl.time_window * 1000000 - now := by
        nlinarith [hb.1, hdv, hveq]
      rw [is_allowed_eq]
      have hfeq : (t :: ts).filter
          (fun s => decide (now + d - rl.time_window * 1000000 < s)) = t :: ts := by
        rw [List.filter_eq_self]
        intro a ha
        have := hle a ha
        simp only [decide_eq_true_eq]
        omega
      rw [hfeq]
      simp only [decide_eq_false_iff_not, not_lt]
      omega
    · intro hdv
      have hdx : ts.foldl intMin t + rl.time_window * 1000000 - now < d := by
        by_cases hxnn : 0 ≤ ts.foldl intMin t + rl.time_window * 1000000 - now
        · have hb := truncMicro_nonneg_bounds _ hxnn
          have hge := le_pyMax0 (truncMicro (ts.foldl intMin t + rl.time_window * 1000000 - now))
          rw [hval] at hdv
          nlinarith [hb.2]
        · have h2 := pyMax0_nonneg (truncMicro (ts.foldl intMin t + rl.time_window * 1000000 - now))
          rw [hval] at hdv
          nlinarith
      rw [is_allowed_eq]
      have hdrop : ((t :: ts).filter
          (fun s => decide (now + d - rl.time_window * 1000000 < s))).length
          < (t :: ts).length := by
        rw [List.length_filter_lt_length_iff_exists]
        refine ⟨ts.foldl intMin t, hmem, ?_⟩
        simp only [decide_eq_true_eq, not_lt]
        omega
      simp only [decide_eq_true_iff]
      omega

/-- Witness for the amended C3 at `max_messages = 1`, `time_window = 60`, a
full log holding instant 0, read at `now` = 0 with a retry offset of 59 s. -/
theorem rateLimiter_wait_time_trunc_witness :
    (0 : Int) < 1 ∧ (0 : Int) < 60
    ∧ (([(0 : Int)].length : Int) = 1) ∧ (0 : Int) ≤ 59000000
    ∧ ((59000000 < RateLimiter.get_wait_time ⟨1, 60⟩ [(0 : Int)] 0 * 1000000 →
          (RateLimiter.is_allowed ⟨1, 60⟩ [(0 : Int)] (0 + 59000000)).1 = false)
       ∧ ((RateLimiter.get_wait_time ⟨1, 60⟩ [(0 : Int)] 0 + 1) * 1000000 ≤ 59000000 →
          (RateLimiter.is_allowed ⟨1, 60⟩ [(0 : Int)] (0 + 59000000)).1 = true)) :=
  ⟨by decide, by decide, by decide, by decide,
   (rateLimiter_wait_time_trunc ⟨1, 60⟩ (by decide) (by decide)).2.2
     [(0 : Int)] 0 59000000 (by decide) (by decide)⟩

/-- C3 counterexample: with one admission recorded at instant 0,
`time_window` = 60 s, `max_messages` = 1, and `now` = 59.5 s (59500000 µs),
the residual wait is 0.5 s.  The source returns `max(0, int(0.5)) = 0`, while
the spec's formula gives `ceil(max(0, 0.5)) = 1`; and an `Admit` retried
`v = 0` seconds later is still rejected, refuting the claim that a retry `v`
seconds later succeeds. -/
theorem rateLimiter_wait_time_ceil_cex :
    RateLimiter.get_wait_time ⟨1, 60⟩ [(0 : Int)] 59500000 = 0
    ∧ ceilSecondsOfMicro ((0 : Int) + 60 * 1000000 - 59500000) = 1
    ∧ RateLimiter.get_wait_time ⟨1, 60⟩ [(0 : Int)] 59500000
        ≠ ceilSecondsOfMicro ((0 : Int) + 60 * 1000000 - 59500000)
    ∧ (RateLimiter.is_allowed ⟨1, 60⟩ [(0 : Int)]
        (59500000 + RateLimiter.get_wait_time ⟨1, 60⟩ [(0 : Int)] 59500000 * 1000000)).1
        = false := by decide

/-! ## Dictionary lemmas -/

lemma lookup_cons_eq {α : Type} (k : Int) (b : α) (es : List (Int × α)) (u : Int) :
    List.lookup u ((k, b) :: es) = if k = u then some b else List.lookup u es := by
  rw [List.lookup_cons]
  by_cases h : k = u
  · subst h
    simp
  · have hne : (u == k) = false := by
      simpa using Ne.symm h
    simp [hne, h]

lemma lookup_eq_none_of_not_any {α : Type} (l : List (Int × α)) (u : Int)
    (h : l.any (fun p => decide (p.1 = u)) = false) : l.lookup u = none := by
  induction l with
  | nil => rfl
  | cons p t ih =>
    simp only [List.any_cons, Bool.or_eq_false_iff] at h
    obtain ⟨p1, p2⟩ := p
    rw [lookup_cons_eq, if_neg (by simpa using h.1)]
    exact ih h.2

lemma lookup_append_left_none {α : Type} (l1 l2 : List (Int × α)) (u : Int)
    (h : l1.lookup u = none) : (l1 ++ l2).lookup u = l2.lookup u := by
  induction l1 with
  | nil => rfl
  | cons p t ih =>
    obtain ⟨p1, p2⟩ := p
    rw [lookup_cons_eq] at h
    rw [List.cons_append, lookup_cons_eq]
    split at h
    · exact absurd h (by simp)
    · rw [if_neg (by assumption)]
      exact ih h

lemma lookup_map_replace {α : Type} (l : List (Int × α)) (u : Int) (a : α)
    (hany : l.any (fun p => decide (p.1 = u)) = true) :
    (l.map (fun p => if p.1 = u then (u, a) else p)).lookup u = some a := by
  induction l with
  | nil => simp at hany
  | cons p t ih =>
    obtain ⟨p1, p2⟩ := p
    by_cases hp : p1 = u
    · simp only [List.map_cons, if_pos hp]
      rw [lookup_cons_eq, if_pos rfl]
    · simp only [List.any_cons, Bool.or_eq_true] at hany
      rcases hany with h1 | h2
      · exact absurd (by simpa using h1) hp
      · simp only [List.map_cons, if_neg hp]
        rw [lookup_cons_eq, if_neg hp]
        exact ih h2

lemma lookup_map_replace_ne {α : Type} (l : List (Int × α)) (u v : Int) (a : α)
    (hvu : v ≠ u) :
    (l.map (fun p => if p.1 = u then (u, a) else p)).lookup v = l.lookup v := by
  induction l with
  | nil => rfl
  | cons p t ih =>
    obtain ⟨p1, p2⟩ := p
    by_cases hp : p1 = u
    · simp only [List.map_cons, if_pos hp]
      rw [lookup_cons_eq, if_neg (fun h => hvu h.symm), lookup_cons_eq,
        if_neg (fun h => hvu (hp ▸ h).symm)]
      exact ih
    · simp only [List.map_cons, if_neg hp]
      rw [lookup_cons_eq, lookup_cons_eq]
      split
      · rfl
      · exact ih

lemma lookup_append_single_ne {α : Type} (l : List (Int × α)) (u v : Int) (a : α)
    (hvu : v ≠ u) : (l ++ [(u, a)]).lookup v = l.lookup v := by
  induction l with
  | nil =>
    rw [List.nil_append, lookup_cons_eq, if_neg (fun h => hvu h.symm)]
  | cons p t ih =>
    obtain ⟨p1, p2⟩ := p
    rw [List.cons_append, lookup_cons_eq, lookup_cons_eq]
    split
    · rfl
    · exact ih

lemma lookup_dictSet_self {α : Type} (l : List (Int × α)) (u : Int) (a : α) :
    (dictSet l u a).lookup u = some a := by
  unfold dictSet
  split
  · exact lookup_map_replace l u a (by assumption)
  · rename_i hany
    rw [lookup_append_left_none _ _ _
        (lookup_eq_none_of_not_any l u (Bool.eq_false_iff.mpr hany)),
      lookup_cons_eq, if_pos rfl]

lemma lookup_dictSet_ne {α : Type} (l : List (Int × α)) (u v : Int) (a : α)
    (hvu : v ≠ u) : (dictSet l u a).lookup v = l.lookup v := by
  unfold dictSet
  split
  · exact lookup_map_replace_ne l u v a hvu
  · exact lookup_append_single_ne l u v a hvu

lemma lookup_filter_not_key {α : Type} (l : List (Int × α)) (u v : Int) :
    (l.filter (fun p => !decide (p.1 = u))).lookup v
      = if v = u then none else l.lookup v := by
  induction l with
  | nil => simp
  | cons p t ih =>
    obtain ⟨p1, p2⟩ := p
    by_cases hp : p1 = u
    · rw [List.filter_cons_of_neg (by simpa using hp), ih, lookup_cons_eq]
      by_cases hv : v = u
      · rw [if_pos hv, if_pos hv]
      · rw [if_neg hv, if_neg hv, if_neg (fun h : p1 = v => hv (h ▸ hp))]
    · rw [List.filter_cons_of_pos (by simpa using hp), lookup_cons_eq, ih, lookup_cons_eq]
      by_cases hv : v = u
      · rw [if_pos hv, if_pos hv, if_neg (fun h => hp (h.trans hv))]
      · rw [if_neg hv, if_neg hv]

lemma clear_context_lookup_self (cm : ContextManager) (u : Int) :
    (cm.clear_context u).user_contexts.lookup u = none
    ∧ (cm.clear_context u).user_last_activity.lookup u = none := by
  unfold ContextManager.clear_context
  constructor <;>
    · rw [lookup_filter_not_key, if_pos rfl]

lemma clear_context_lookup_ne (cm : ContextManager) (u v : Int) (hvu : v ≠ u) :
    (cm.clear_context u).user_contexts.lookup v = cm.user_contexts.lookup v
    ∧ (cm.clear_context u).user_last_activity.lookup v = cm.user_last_activity.lookup v := by
  unfold ContextManager.clear_context
  constructor <;>
    · rw [lookup_filter_not_key, if_neg hvu]

/-! ## ContextManager lemmas and theorems -/

lemma add_message_short (cfg : Config) (cm : ContextManager) (u : Int)
    (text : List Char) (mid : Option Int) (now : Int)
    (h : (pyStrip text).length < 5) :
    cm.add_message cfg u text mid now = cm := by
  unfold ContextManager.add_message
  rw [if_pos h]

lemma add_message_lookup (cfg : Config) (cm : ContextManager) (u : Int)
    (text : List Char) (mid : Option Int) (now : Int)
    (hval : ¬ (pyStrip text).length < 5) :
    (cm.add_message cfg u text mid now).user_contexts.lookup u
      = some (capIf cfg.CONTEXT_MAX_MESSAGES
          (((cm.user_contexts.lookup u).getD [])
            ++ [⟨pyStrip text, now, mid⟩]))
    ∧ (cm.add_message cfg u text mid now).user_last_activity.lookup u = some now := by
  unfold ContextManager.add_message
  rw [if_neg hval]
  exact ⟨lookup_dictSet_self _ _ _, lookup_dictSet_self _ _ _⟩

lemma add_message_lookup_other (cfg : Config) (cm : ContextManager) (u v : Int)
    (text : List Char) (mid : Option Int) (now : Int) (hvu : v ≠ u) :
    (cm.add_message cfg u text mid now).user_contexts.lookup v
        = cm.user_contexts.lookup v
    ∧ (cm.add_message cfg u text mid now).user_last_activity.lookup v
        = cm.user_last_activity.lookup v := by
  unfold ContextManager.add_message
  split
  · exact ⟨rfl, rfl⟩
  · exact ⟨lookup_dictSet_ne _ _ _ _ hvu, lookup_dictSet_ne _ _ _ _ hvu⟩

lemma capIf_eq_capList {α : Type} (n : Nat) (l : List α) (hn : 0 < n) :
    capIf n l = capList n l := by
  unfold capIf capList
  split
  · rw [if_neg (by omega)]
  · rw [show l.length - n = 0 by omega, List.drop_zero]

lemma capList_capList_append {α : Type} (n : Nat) (l r : List α) :
    capList n (capList n l ++ r) = capList n (l ++ r) := by
  unfold capList
  simp only [List.length_append, List.length_drop]
  rw [← List.drop_append_of_le_length (Nat.sub_le l.length n), List.drop_drop]
  congr 1
  omega

lemma capList_length_le {α : Type} (n : Nat) (l : List α) : (capList n l).length ≤ n ∨ l.length ≤ n := by
  unfold capList
  rw [List.length_drop]
  omega

lemma runAppends_lookup (cfg : Config) (u : Int) (hmax : 0 < cfg.CONTEXT_MAX_MESSAGES) :
    ∀ (items : List (List Char × Option Int × Int)) (cm : ContextManager),
      (items.foldl (fun s it => s.add_message cfg u it.1 it.2.1 it.2.2) cm).user_contexts.lookup u
        = if validEntries items = [] then cm.user_contexts.lookup u
          else some (capList cfg.CONTEXT_MAX_MESSAGES
            (((cm.user_contexts.lookup u).getD []) ++ validEntries items)) := by
  intro items
  induction items with
  | nil =>
    intro cm
    simp [validEntries]
  | cons it rest ih =>
    intro cm
    rw [List.foldl_cons]
    by_cases hv : (pyStrip it.1).length < 5
    · rw [add_message_short cfg cm u it.1 it.2.1 it.2.2 hv]
      have hvE : validEntries (it :: rest) = validEntries rest := by
        unfold validEntries
        rw [List.filter_cons_of_neg (by simpa using hv)]
      rw [ih cm, hvE]
    · have hvE : validEntries (it :: rest) = mkEntry it :: validEntries rest := by
        unfold validEntries
        rw [List.filter_cons_of_pos (by simpa using hv), List.map_cons]
      obtain ⟨hctx, _⟩ := add_message_lookup cfg cm u it.1 it.2.1 it.2.2 hv
      rw [ih (cm.add_message cfg u it.1 it.2.1 it.2.2), hctx, hvE]
      by_cases hr : validEntries rest = []
      · rw [if_pos hr, if_neg (List.cons_ne_nil (mkEntry it) (validEntries rest))]
        rw [capIf_eq_capList _ _ hmax, hr]
        rfl
      · rw [if_neg hr, if_neg (List.cons_ne_nil (mkEntry it) (validEntries rest))]
        simp only [Option.getD_some]
        rw [capIf_eq_capList _ _ hmax, capList_capList_append, List.append_assoc]
        rfl

/-- C4: `add_message` is a silent no-op leaving the whole state unchanged when
the stripped text has fewer than 5 characters; otherwise it appends the new
entry at the tail (capping at `CONTEXT_MAX_MESSAGES` from the head) and
refreshes the user's last activity to `now`; and after any sequence of
`add_message` calls from a fresh manager the user's entry count is at most
`CONTEXT_MAX_MESSAGES` and the retained entries are exactly the most recent
`CONTEXT_MAX_MESSAGES` valid entries in original order. -/
theorem contextManager_append_bounded (cfg : Config) :
    (∀ (cm : ContextManager) (u : Int) (text : List Char) (mid : Option Int) (now : Int),
        (pyStrip text).length < 5 → cm.add_message cfg u text mid now = cm)
    ∧ (∀ (cm : ContextManager) (u : Int) (text : List Char) (mid : Option Int) (now : Int),
        ¬ (pyStrip text).length < 5 →
        ((cm.add_message cfg u text mid now).user_contexts.lookup u
            = some (capIf cfg.CONTEXT_MAX_MESSAGES
                (((cm.user_contexts.lookup u).getD [])
                  ++ [⟨pyStrip text, now, mid⟩]))
         ∧ (cm.add_message cfg u text mid now).user_last_activity.lookup u = some now))
    ∧ (∀ (u : Int) (items : List (List Char × Option Int × Int)),
        0 < cfg.CONTEXT_MAX_MESSAGES →
        ((runAppends cfg u items).user_contexts.lookup u
            = (if validEntries items = [] then none
               else some (capList cfg.CONTEXT_MAX_MESSAGES (validEntries items)))
         ∧ (((runAppends cfg u items).user_contexts.lookup u).getD []).length
              ≤ cfg.CONTEXT_MAX_MESSAGES)) := by
  refine ⟨fun cm u text mid now h => add_message_short cfg cm u text mid now h,
    fun cm u text mid now h => add_message_lookup cfg cm u text mid now h, ?_⟩
  intro u items hmax
  have h := runAppends_lookup cfg u hmax items ⟨[], []⟩
  have hempty : (⟨[], []⟩ : ContextManager).user_contexts.lookup u = none := rfl
  rw [hempty] at h
  have hmain : (runAppends cfg u items).user_contexts.lookup u
      = if validEntries items = [] then none
        else some (capList cfg.CONTEXT_MAX_MESSAGES (validEntries items)) := by
    unfold runAppends
    rw [h]
    split
    · rfl
    · rfl
  refine ⟨hmain, ?_⟩
  rw [hmain]
  split
  · simp
  · simp only [Option.getD_some]
    unfold capList
    rw [List.length_drop]
    omega

/-- Witness for C4: a short text is dropped without touching the state, and a
run of 3 valid appends with `CONTEXT_MAX_MESSAGES = 2` keeps the last 2. -/
theorem contextManager_append_bounded_witness :
    ((pyStrip "hi".data).length < 5
      ∧ ContextManager.add_message defaultConfig ⟨[], []⟩ 1 "hi".data none 0 = ⟨[], []⟩)
    ∧ (0 < (2 : Nat)
      ∧ ((runAppends ⟨2, 30, 4000⟩ 1
            [("first".data, none, 0), ("second".data, none, 1), ("third".data, none, 2)]).user_contexts.lookup 1
          = (if validEntries [("first".data, none, 0), ("second".data, none, 1), ("third".data, none, 2)] = [] then none
             else some (capList 2 (validEntries [("first".data, none, 0), ("second".data, none, 1), ("third".data, none, 2)])))
        ∧ (((runAppends ⟨2, 30, 4000⟩ 1
            [("first".data, none, 0), ("second".data, none, 1), ("third".data, none, 2)]).user_contexts.lookup 1).getD []).length ≤ 2)) :=
  ⟨⟨by decide,
    (contextManager_append_bounded defaultConfig).1 ⟨[], []⟩ 1 "hi".data none 0 (by decide)⟩,
   ⟨by decide,
    (contextManager_append_bounded ⟨2, 30, 4000⟩).2.2 1
      [("first".data, none, 0), ("second".data, none, 1), ("third".data, none, 2)] (by decide)⟩⟩

/-- C5: once strictly more than the timeout has elapsed since the user's last
activity (here witnessed by the stored `lastActivity` value), `has_context`
answers false and `get_context_text` answers `none`, each clearing the user's
buffer and activity record as a side effect, with no `cleanup_expired_contexts`
call needed; and the shared expiry test is strict (`now - lastActivity > ttl`),
so a buffer exactly `ttl` old is not expired. -/
theorem contextManager_lazy_expiry (cfg : Config) (cm : ContextManager) (u : Int)
    (now la : Int) (es : List ContextMessage)
    (hla : cm.user_last_activity.lookup u = some la)
    (hes : cm.user_contexts.lookup u = some es) (hne : es ≠ [])
    (hexp : 60 * cfg.CONTEXT_TIMEOUT_MINUTES < now - la) :
    (cm.has_context cfg u now).1 = false
    ∧ (cm.has_context cfg u now).2.user_contexts.lookup u = none
    ∧ (cm.has_context cfg u now).2.user_last_activity.lookup u = none
    ∧ (cm.get_context_text cfg u now).1 = none
    ∧ (cm.get_context_text cfg u now).2.user_contexts.lookup u = none
    ∧ (cm.get_context_text cfg u now).2.user_last_activity.lookup u = none
    ∧ (∀ (cm' : ContextManager) (la' now' : Int),
        cm'.user_last_activity.lookup u = some la' →
        now' - la' = 60 * cfg.CONTEXT_TIMEOUT_MINUTES →
        cm'.is_context_expired cfg u now' = false) := by
  have hexpired : cm.is_context_expired cfg u now = true := by
    unfold ContextManager.is_context_expired
    rw [hla]
    simp only [decide_eq_true_eq]
    omega
  obtain ⟨m, rest, rfl⟩ : ∃ m rest, es = m :: rest := by
    cases es with
    | nil => exact absurd rfl hne
    | cons a b => exact ⟨a, b, rfl⟩
  have h1 : cm.has_context cfg u now = (false, cm.clear_context u) := by
    unfold ContextManager.has_context
    rw [hes]
    simp [hexpired]
  have h2 : cm.get_context_text cfg u now = (none, cm.clear_context u) := by
    unfold ContextManager.get_context_text
    rw [hes]
    simp [hexpired]
  refine ⟨by rw [h1], by rw [h1]; exact (clear_context_lookup_self cm u).1,
    by rw [h1]; exact (clear_context_lookup_self cm u).2,
    by rw [h2], by rw [h2]; exact (clear_context_lookup_self cm u).1,
    by rw [h2]; exact (clear_context_lookup_self cm u).2, ?_⟩
  intro cm' la' now' hla' heq
  unfold ContextManager.is_context_expired
  rw [hla']
  simp only [decide_eq_false_iff_not]
  omega

/-- Witness for C5: one message, `lastActivity` = 0, timeout 30 min, read at
`now` = 1801 s. -/
theorem contextManager_lazy_expiry_witness :
    ((⟨[(1, [⟨"hello".data, 0, none⟩])], [(1, 0)]⟩ : ContextManager).user_last_activity.lookup 1
        = some 0)
    ∧ ((⟨[(1, [⟨"hello".data, 0, none⟩])], [(1, 0)]⟩ : ContextManager).user_contexts.lookup 1
        = some [⟨"hello".data, 0, none⟩])
    ∧ ([(⟨"hello".data, 0, none⟩ : ContextMessage)] ≠ [])
    ∧ (60 * defaultConfig.CONTEXT_TIMEOUT_MINUTES < 1801 - 0)
    ∧ ((ContextManager.has_context defaultConfig
          ⟨[(1, [⟨"hello".data, 0, none⟩])], [(1, 0)]⟩ 1 1801).1 = false
       ∧ (ContextManager.has_context defaultConfig
          ⟨[(1, [⟨"hello".data, 0, none⟩])], [(1, 0)]⟩ 1 1801).2.user_contexts.lookup 1 = none) := by
  have h := contextManager_lazy_expiry defaultConfig
    ⟨[(1, [⟨"hello".data, 0, none⟩])], [(1, 0)]⟩ 1 1801 0 [⟨"hello".data, 0, none⟩]
    (by decide) (by decide) (by decide) (by decide)
  exact ⟨by decide, by decide, by decide, by decide, h.1, h.2.1⟩

/-- C9: when the user's buffer is absent, empty, or not expired,
`get_context_text` leaves the whole state unchanged, and a second call with no
intervening `add_message` at the same instant returns identical output. -/
theorem contextManager_render_pure (cfg : Config) (cm : ContextManager) (u : Int) (now : Int)
    (h : cm.user_contexts.lookup u = none ∨ cm.user_contexts.lookup u = some []
         ∨ cm.is_context_expired cfg u now = false) :
    (cm.get_context_text cfg u now).2 = cm
    ∧ ((cm.get_context_text cfg u now).2.get_context_text cfg u now).1
        = (cm.get_context_text cfg u now).1 := by
  have hst : (cm.get_context_text cfg u now).2 = cm := by
    unfold ContextManager.get_context_text
    rcases h with h | h | h
    · rw [h]
    · rw [h]
    · cases hlu : cm.user_contexts.lookup u with
      | none => rfl
      | some es =>
        cases es with
        | nil => rfl
        | cons m rest =>
          simp only [h, Bool.false_eq_true, if_false]
          split <;> rfl
  exact ⟨hst, by rw [hst]⟩

/-- Witness for C9: a fresh one-message buffer read (twice) at the instant of
its creation. -/
theorem contextManager_render_pure_witness :
    ((⟨[(1, [⟨"hello".data, 0, none⟩])], [(1, 0)]⟩ : ContextManager).user_contexts.lookup 1 = none
      ∨ (⟨[(1, [⟨"hello".data, 0, none⟩])], [(1, 0)]⟩ : ContextManager).user_contexts.lookup 1 = some []
      ∨ (⟨[(1, [⟨"hello".data, 0, none⟩])], [(1, 0)]⟩ : ContextManager).is_context_expired defaultConfig 1 0 = false)
    ∧ ((ContextManager.get_context_text defaultConfig
          ⟨[(1, [⟨"hello".data, 0, none⟩])], [(1, 0)]⟩ 1 0).2
        = ⟨[(1, [⟨"hello".data, 0, none⟩])], [(1, 0)]⟩
      ∧ ((ContextManager.get_context_text defaultConfig
            ⟨[(1, [⟨"hello".data, 0, none⟩])], [(1, 0)]⟩ 1 0).2.get_context_text defaultConfig 1 0).1
          = (ContextManager.get_context_text defaultConfig
              ⟨[(1, [⟨"hello".data, 0, none⟩])], [(1, 0)]⟩ 1 0).1) :=
  ⟨Or.inr (Or.inr (by decide)),
   contextManager_render_pure defaultConfig
     ⟨[(1, [⟨"hello".data, 0, none⟩])], [(1, 0)]⟩ 1 0 (Or.inr (Or.inr (by decide)))⟩

/-- C8 (amended): neither constructor validates its configuration.
`RateLimiter.__init__` stores any `max_messages` and `time_window` verbatim —
no failure and no clamping — and `ContextManager.__init__` takes no
configuration parameters at all and always succeeds; non-positive values are
simply accepted and take effect as given. -/
theorem construction_no_validation :
    (∀ m w : Int, RateLimiter.init m w = .ok ⟨m, w⟩)
    ∧ ContextManager.init = .ok ⟨[], []⟩ :=
  ⟨fun _ _ => rfl, rfl⟩

/-- C8 counterexample: constructing the rate limiter with `max_messages = 0`
and `time_window = -1` succeeds and stores the values unchanged — nothing
fails fast — and the context manager's constructor succeeds unconditionally;
the non-positive values then simply take effect: `is_allowed` with
`max_messages = 0` rejects even a first call, and `add_message` with
`CONTEXT_MAX_MESSAGES = 0` silently proceeds (Python's cap slice `l[-0:]`
keeps the whole list, so the entry is stored) instead of any
construction-time failure. -/
theorem construction_accepts_nonpositive_cex :
    RateLimiter.init 0 (-1) = .ok ⟨0, -1⟩
    ∧ (RateLimiter.init 0 (-1)).isOk = true
    ∧ ContextManager.init = .ok ⟨[], []⟩
    ∧ (RateLimiter.is_allowed ⟨0, -1⟩ [] 0).1 = false
    ∧ (ContextManager.add_message ⟨0, -5, 0⟩ ⟨[], []⟩ 1 "hello".data none 0).user_contexts
        = [(1, [⟨"hello".data, 0, none⟩])] :=
  ⟨rfl, rfl, rfl, by decide, by decide⟩

/-- C10: a valid `add_message` on a buffer that has expired but has not yet
been observed (no `has_context`/`get_context_text`/`cleanup_expired_contexts`
touched it) does not start a fresh buffer: it appends to the stale entries, so
the buffer then holds the old entries plus the new one (capped at
`CONTEXT_MAX_MESSAGES`), `lastActivity` is refreshed to `now`, the buffer is
no longer expired, and a `get_context_text` at `now` renders it (old entries
included). -/
theorem contextManager_stale_append (cfg : Config) (cm : ContextManager) (u : Int)
    (text : List Char) (mid : Option Int) (now : Int) (es : List ContextMessage)
    (h1 : cm.user_contexts.lookup u = some es) (h2 : es ≠ [])
    (h3 : cm.is_context_expired cfg u now = true)
    (h4 : ¬ (pyStrip text).length < 5)
    (h5 : 0 < cfg.CONTEXT_MAX_MESSAGES)
    (h6 : 0 ≤ cfg.CONTEXT_TIMEOUT_MINUTES) :
    (cm.add_message cfg u text mid now).user_contexts.lookup u
      = some (capIf cfg.CONTEXT_MAX_MESSAGES (es ++ [⟨pyStrip text, now, mid⟩]))
    ∧ (cm.add_message cfg u text mid now).user_last_activity.lookup u = some now
    ∧ (cm.add_message cfg u text mid now).is_context_expired cfg u now = false
    ∧ ((cm.add_message cfg u text mid now).get_context_text cfg u now).1.isSome = true := by
  obtain ⟨hctx, hact⟩ := add_message_lookup cfg cm u text mid now h4
  rw [h1] at hctx
  simp only [Option.getD_some] at hctx
  have hnotexp : (cm.add_message cfg u text mid now).is_context_expired cfg u now = false := by
    unfold ContextManager.is_context_expired
    rw [hact]
    simp only [decide_eq_false_iff_not]
    omega
  refine ⟨hctx, hact, hnotexp, ?_⟩
  have hcap_ne : capIf cfg.CONTEXT_MAX_MESSAGES (es ++ [⟨pyStrip text, now, mid⟩]) ≠ [] := by
    unfold capIf
    split
    · rw [if_neg (by omega)]
      intro hnil
      have hlen := congrArg List.length hnil
      rw [List.length_drop] at hlen
      simp only [List.length_append, List.length_cons, List.length_nil] at hlen
      omega
    · simp
  obtain ⟨m, rest, hmr⟩ : ∃ m rest,
      capIf cfg.CONTEXT_MAX_MESSAGES (es ++ [⟨pyStrip text, now, mid⟩]) = m :: rest := by
    cases hcl : capIf cfg.CONTEXT_MAX_MESSAGES (es ++ [⟨pyStrip text, now, mid⟩]) with
    | nil => exact absurd hcl hcap_ne
    | cons a b => exact ⟨a, b, rfl⟩
  rw [hmr] at hctx
  unfold ContextManager.get_context_text
  rw [hctx, hnotexp]
  simp only [Bool.false_eq_true, if_false]
  split <;> rfl

/-- Witness for C10: timeout 0 minutes (so any positive age is expiry), one
stale message from instant 0, appended to at `now` = 100 s. -/
theorem contextManager_stale_append_witness :
    ((⟨[(1, [⟨"hello".data, 0, none⟩])], [(1, 0)]⟩ : ContextManager).user_contexts.lookup 1
        = some [⟨"hello".data, 0, none⟩])
    ∧ ([(⟨"hello".data, 0, none⟩ : ContextMessage)] ≠ [])
    ∧ ((⟨[(1, [⟨"hello".data, 0, none⟩])], [(1, 0)]⟩ : ContextManager).is_context_expired
        ⟨10, 0, 4000⟩ 1 100 = true)
    ∧ (¬ (pyStrip "world".data).length < 5)
    ∧ 0 < (10 : Nat) ∧ (0 : Int) ≤ 0
    ∧ ((ContextManager.add_message ⟨10, 0, 4000⟩
          ⟨[(1, [⟨"hello".data, 0, none⟩])], [(1, 0)]⟩ 1 "world".data none 100).user_contexts.lookup 1
        = some (capIf 10 ([⟨"hello".data, 0, none⟩] ++ [⟨pyStrip "world".data, 100, none⟩]))
      ∧ (ContextManager.add_message ⟨10, 0, 4000⟩
          ⟨[(1, [⟨"hello".data, 0, none⟩])], [(1, 0)]⟩ 1 "world".data none 100).user_last_activity.lookup 1
        = some 100) := by
  have h := contextManager_stale_append ⟨10, 0, 4000⟩
    ⟨[(1, [⟨"hello".data, 0, none⟩])], [(1, 0)]⟩ 1 "world".data none 100
    [⟨"hello".data, 0, none⟩]
    (by decide) (by decide) (by decide) (by decide) (by decide) (by decide)
  exact ⟨by decide, by decide, by decide, by decide, by decide, by decide, h.1, h.2.1⟩

lemma lookup_eq_none_of_not_mem_keys {α : Type} (l : List (Int × α)) (u : Int)
    (h : u ∉ l.map Prod.fst) : l.lookup u = none := by
  induction l with
  | nil => rfl
  | cons p t ih =>
    obtain ⟨p1, p2⟩ := p
    simp only [List.map_cons, List.mem_cons, not_or] at h
    rw [lookup_cons_eq, if_neg (fun he => h.1 he.symm)]
    exact ih h.2

lemma foldl_clear_lookup :
    ∀ (E : List Int) (cm : ContextManager) (u : Int),
      ((E.foldl (fun s v => s.clear_context v) cm).user_contexts.lookup u
          = if u ∈ E then none else cm.user_contexts.lookup u)
      ∧ ((E.foldl (fun s v => s.clear_context v) cm).user_last_activity.lookup u
          = if u ∈ E then none else cm.user_last_activity.lookup u) := by
  intro E
  induction E with
  | nil =>
    intro cm u
    simp
  | cons e E ih =>
    intro cm u
    rw [List.foldl_cons]
    obtain ⟨ih1, ih2⟩ := ih (cm.clear_context e) u
    by_cases huE : u ∈ E
    · simp only [ih1, ih2, if_pos huE, if_pos (List.mem_cons_of_mem e huE)]
      exact ⟨trivial, trivial⟩
    · by_cases hue : u = e
      · subst hue
        simp only [ih1, ih2, if_neg huE, if_pos (List.mem_cons_self u E)]
        exact ⟨(clear_context_lookup_self cm u).1, (clear_context_lookup_self cm u).2⟩
      · have hmem : u ∉ e :: E := by
          rw [List.mem_cons]
          rintro (h | h)
          · exact hue h
          · exact huE h
        simp only [ih1, ih2, if_neg huE, if_neg hmem]
        exact ⟨(clear_context_lookup_ne cm e u hue).1, (clear_context_lookup_ne cm e u hue).2⟩

/-- C7 (amended): `cleanup_expired_contexts` scans all tracked users and
removes exactly the buffers the shared expiry test marks as expired, together
with their activity records (the records of users with no buffer are left
alone); but the Python function has no `return` statement, so it returns
`None` — not the count of buffers removed, which it only logs. -/
theorem contextManager_cleanup (cfg : Config) (cm : ContextManager) (now : Int) (u : Int) :
    (cm.cleanup_expired_contexts cfg now).1 = none
    ∧ ((cm.cleanup_expired_contexts cfg now).2.user_contexts.lookup u
        = if cm.is_context_expired cfg u now then none else cm.user_contexts.lookup u)
    ∧ ((cm.cleanup_expired_contexts cfg now).2.user_last_activity.lookup u
        = if cm.is_context_expired cfg u now ∧ u ∈ cm.user_contexts.map Prod.fst then none
          else cm.user_last_activity.lookup u) := by
  have hE : ∀ v : Int,
      v ∈ (cm.user_contexts.map Prod.fst).filter (fun w => cm.is_context_expired cfg w now)
        ↔ (v ∈ cm.user_contexts.map Prod.fst ∧ cm.is_context_expired cfg v now = true) :=
    fun v => List.mem_filter
  obtain ⟨hc, ha⟩ := foldl_clear_lookup
    ((cm.user_contexts.map Prod.fst).filter (fun w => cm.is_context_expired cfg w now)) cm u
  refine ⟨rfl, ?_, ?_⟩
  · show ((((cm.user_contexts.map Prod.fst).filter
        (fun w => cm.is_context_expired cfg w now)).foldl
          (fun s v => s.clear_context v) cm).user_contexts.lookup u) = _
    rw [hc]
    by_cases hexp : cm.is_context_expired cfg u now = true
    · rw [if_pos hexp]
      by_cases hkey : u ∈ cm.user_contexts.map Prod.fst
      · rw [if_pos ((hE u).2 ⟨hkey, hexp⟩)]
      · rw [if_neg (fun h => hkey ((hE u).1 h).1)]
        exact lookup_eq_none_of_not_mem_keys _ u hkey
    · rw [if_neg (fun h => hexp ((hE u).1 h).2), if_neg hexp]
  · show ((((cm.user_contexts.map Prod.fst).filter
        (fun w => cm.is_context_expired cfg w now)).foldl
          (fun s v => s.clear_context v) cm).user_last_activity.lookup u) = _
    rw [ha]
    by_cases hin : u ∈ (cm.user_contexts.map Prod.fst).filter
        (fun w => cm.is_context_expired cfg w now)
    · rw [if_pos hin, if_pos ⟨((hE u).1 hin).2, ((hE u).1 hin).1⟩]
    · rw [if_neg hin, if_neg (fun h => hin ((hE u).2 ⟨h.2, h.1⟩))]

/-- C7 counterexample: on a state with exactly one user, whose buffer is
expired at `now` = 999999 s, `cleanup_expired_contexts` removes that one
buffer — yet its return value is `None`, not the integer count 1 the claim
asserts. -/
theorem contextManager_cleanup_returns_none_cex :
    ((ContextManager.cleanup_expired_contexts defaultConfig
        ⟨[(1, [⟨"hello".data, 0, none⟩])], [(1, 0)]⟩ 999999).1 = none)
    ∧ (ContextManager.cleanup_expired_contexts defaultConfig
        ⟨[(1, [⟨"hello".data, 0, none⟩])], [(1, 0)]⟩ 999999).2.user_contexts = []
    ∧ ((⟨[(1, [⟨"hello".data, 0, none⟩])], [(1, 0)]⟩ : ContextManager).user_contexts.length
        - (ContextManager.cleanup_expired_contexts defaultConfig
            ⟨[(1, [⟨"hello".data, 0, none⟩])], [(1, 0)]⟩ 999999).2.user_contexts.length = 1)
    ∧ (ContextManager.cleanup_expired_contexts defaultConfig
        ⟨[(1, [⟨"hello".data, 0, none⟩])], [(1, 0)]⟩ 999999).1 ≠ some 1 := by
  refine ⟨rfl, by decide, by decide, ?_⟩
  intro h
  exact Option.noConfusion h

lemma truncLoop_none_fits (msgs : List ContextMessage) (c : Nat) :
    ∀ k, truncLoop msgs c k = none →
      ∀ i, 1 ≤ i → i ≤ k → c < (renderSuffix msgs i).length := by
  intro k
  induction k with
  | zero =>
    intro _ i h1 h2
    omega
  | succ k ih =>
    intro hnone i h1 h2
    simp only [truncLoop] at hnone
    split at hnone
    · exact absurd hnone (by simp)
    · rename_i hfit
      by_cases hik : i ≤ k
      · exact ih hnone i h1 hik
      · have hi : i = k + 1 := by omega
        subst hi
        omega

lemma truncLoop_some_spec (msgs : List ContextMessage) (c : Nat) :
    ∀ k s, truncLoop msgs c k = some s →
      ∃ i, 1 ≤ i ∧ i ≤ k ∧ (renderSuffix msgs i).length ≤ c ∧ s = renderSuffix msgs i
        ∧ ∀ j, i < j → j ≤ k → c < (renderSuffix msgs j).length := by
  intro k
  induction k with
  | zero =>
    intro s h
    simp [truncLoop] at h
  | succ k ih =>
    intro s h
    simp only [truncLoop] at h
    split at h
    · rename_i hfit
      exact ⟨k + 1, by omega, le_refl _, hfit, (Option.some.inj h).symm,
        fun j hj1 hj2 => by omega⟩
    · rename_i hfit
      obtain ⟨i, h1, h2, h3, h4, h5⟩ := ih s h
      refine ⟨i, h1, by omega, h3, h4, ?_⟩
      intro j hj1 hj2
      by_cases hjk : j ≤ k
      · exact h5 j hj1 hjk
      · have hj : j = k + 1 := by omega
        subst hj
        omega

/-- C2 (amended): for a non-empty, non-expired buffer, truncation triggers
exactly when `len(full) // 4 > CONTEXT_MAX_TOKENS` (so a rendering exceeding
the character budget `CONTEXT_MAX_TOKENS * 4` by 1–3 characters is returned
untruncated — see the counterexample); when it does trigger, the output is the
rendering of the maximal trailing suffix of entries whose joined rendering has
length at most `CONTEXT_MAX_TOKENS * 4` and its length respects that budget,
and if no suffix of at least one entry fits, the output is the latest entry's
text hard-truncated to the budget. -/
theorem contextManager_render_truncation (cfg : Config) (cm : ContextManager) (u : Int)
    (now : Int) (m0 : ContextMessage) (rest : List ContextMessage)
    (hes : cm.user_contexts.lookup u = some (m0 :: rest))
    (hexp : cm.is_context_expired cfg u now = false)
    (htrig : cfg.CONTEXT_MAX_TOKENS < (renderFull (m0 :: rest)).length / 4) :
    (cm.get_context_text cfg u now).1
        = some (truncate_context (m0 :: rest) cfg.CONTEXT_MAX_TOKENS)
    ∧ (truncate_context (m0 :: rest) cfg.CONTEXT_MAX_TOKENS).length
        ≤ cfg.CONTEXT_MAX_TOKENS * 4
    ∧ ((∃ i, 1 ≤ i ∧ i ≤ (m0 :: rest).length
          ∧ (renderSuffix (m0 :: rest) i).length ≤ cfg.CONTEXT_MAX_TOKENS * 4
          ∧ truncate_context (m0 :: rest) cfg.CONTEXT_MAX_TOKENS
              = renderSuffix (m0 :: rest) i
          ∧ ∀ j, i < j → j ≤ (m0 :: rest).length →
              cfg.CONTEXT_MAX_TOKENS * 4 < (renderSuffix (m0 :: rest) j).length)
        ∨ ((∀ j, 1 ≤ j → j ≤ (m0 :: rest).length →
              cfg.CONTEXT_MAX_TOKENS * 4 < (renderSuffix (m0 :: rest) j).length)
          ∧ truncate_context (m0 :: rest) cfg.CONTEXT_MAX_TOKENS
              = ((m0 :: rest).getLast (List.cons_ne_nil m0 rest)).text.take
                  (cfg.CONTEXT_MAX_TOKENS * 4))) := by
  have hout : (cm.get_context_text cfg u now).1
      = some (truncate_context (m0 :: rest) cfg.CONTEXT_MAX_TOKENS) := by
    unfold ContextManager.get_context_text
    rw [hes]
    simp only [hexp, Bool.false_eq_true, if_false, if_pos htrig]
  refine ⟨hout, ?_, ?_⟩
  · cases hloop : truncLoop (m0 :: rest) (cfg.CONTEXT_MAX_TOKENS * 4) (m0 :: rest).length with
    | some s =>
      obtain ⟨i, _, _, h3, h4, _⟩ :=
        truncLoop_some_spec (m0 :: rest) (cfg.CONTEXT_MAX_TOKENS * 4) (m0 :: rest).length s hloop
      have htc : truncate_context (m0 :: rest) cfg.CONTEXT_MAX_TOKENS = s := by
        simp only [truncate_context]
        rw [hloop]
      rw [htc, h4]
      exact h3
    | none =>
      have htc : truncate_context (m0 :: rest) cfg.CONTEXT_MAX_TOKENS
          = ((m0 :: rest).getLast (List.cons_ne_nil m0 rest)).text.take
              (cfg.CONTEXT_MAX_TOKENS * 4) := by
        simp only [truncate_context]
        rw [hloop, List.getLast?_eq_getLast _ (List.cons_ne_nil m0 rest)]
      rw [htc, List.length_take]
      exact min_le_left _ _
  · cases hloop : truncLoop (m0 :: rest) (cfg.CONTEXT_MAX_TOKENS * 4) (m0 :: rest).length with
    | some s =>
      obtain ⟨i, h1, h2, h3, h4, h5⟩ :=
        truncLoop_some_spec (m0 :: rest) (cfg.CONTEXT_MAX_TOKENS * 4) (m0 :: rest).length s hloop
      have htc : truncate_context (m0 :: rest) cfg.CONTEXT_MAX_TOKENS = s := by
        simp only [truncate_context]
        rw [hloop]
      exact Or.inl ⟨i, h1, h2, h3, htc.trans h4, h5⟩
    | none =>
      have htc : truncate_context (m0 :: rest) cfg.CONTEXT_MAX_TOKENS
          = ((m0 :: rest).getLast (List.cons_ne_nil m0 rest)).text.take
              (cfg.CONTEXT_MAX_TOKENS * 4) := by
        simp only [truncate_context]
        rw [hloop, List.getLast?_eq_getLast _ (List.cons_ne_nil m0 rest)]
      exact Or.inr
        ⟨truncLoop_none_fits (m0 :: rest) (cfg.CONTEXT_MAX_TOKENS * 4) (m0 :: rest).length hloop,
         htc⟩

/-- Witness for the amended C2: one 5-character message under a budget of
`CONTEXT_MAX_TOKENS = 1` (4 characters): truncation triggers (29 / 4 = 7 > 1)
and the hard-truncation branch outputs at most 4 characters. -/
theorem contextManager_render_truncation_witness :
    ((⟨[(1, [⟨"abcde".data, 0, none⟩])], [(1, 0)]⟩ : ContextManager).user_contexts.lookup 1
        = some [⟨"abcde".data, 0, none⟩])
    ∧ ((⟨[(1, [⟨"abcde".data, 0, none⟩])], [(1, 0)]⟩ : ContextManager).is_context_expired
        ⟨10, 30, 1⟩ 1 0 = false)
    ∧ ((1 : Nat) < (renderFull [⟨"abcde".data, 0, none⟩]).length / 4)
    ∧ ((ContextManager.get_context_text ⟨10, 30, 1⟩
          ⟨[(1, [⟨"abcde".data, 0, none⟩])], [(1, 0)]⟩ 1 0).1
        = some (truncate_context [⟨"abcde".data, 0, none⟩] 1)
       ∧ (truncate_context [⟨"abcde".data, 0, none⟩] 1).length ≤ 1 * 4) := by
  have h := contextManager_render_truncation ⟨10, 30, 1⟩
    ⟨[(1, [⟨"abcde".data, 0, none⟩])], [(1, 0)]⟩ 1 0 ⟨"abcde".data, 0, none⟩ []
    (by decide) (by decide) (by decide)
  exact ⟨by decide, by decide, by decide, h.1, h.2.1⟩

/-- C2 counterexample: with `CONTEXT_MAX_TOKENS = 7` (character budget 28),
one message whose full rendering has 29 characters: the rendering exceeds the
budget, but `29 // 4 = 7` is not `> 7`, so no truncation happens — `Render`
returns the 29-character string, whose length is not `≤ 28`, refuting the
claim that the output fits the budget whenever the full rendering exceeds
it. -/
theorem contextManager_render_overbudget_cex :
    ((⟨10, 30, 7⟩ : Config).CONTEXT_MAX_TOKENS * 4
        < (renderFull [⟨"abcde".data, 0, none⟩]).length)
    ∧ (ContextManager.get_context_text ⟨10, 30, 7⟩
        ⟨[(1, [⟨"abcde".data, 0, none⟩])], [(1, 0)]⟩ 1 0).1
        = some (renderFull [⟨"abcde".data, 0, none⟩])
    ∧ ¬ ((renderFull [⟨"abcde".data, 0, none⟩]).length
        ≤ (⟨10, 30, 7⟩ : Config).CONTEXT_MAX_TOKENS * 4) := by decide
